import Mathlib

/-!
Verification development for `pfctoolkit.mapping` (Lesion Network Mapping with
the Precomputed Connectome).

The module's numeric arrays hold machine floats; here they are embedded as
matrices (lists of lists) over an arbitrary commutative ring `α` with decidable
equality, so that all claims are settled under exact arithmetic and witnesses
can be evaluated over `ℤ`.  NIfTI masking, `np.load`, and the configuration
object are external collaborators of the module; they enter the embedding as
explicit data (`ChunkEnv`).
-/

set_option maxHeartbeats 1000000

namespace PFC

variable {α : Type} [CommRing α] [DecidableEq α]

/-- Numpy boolean-mask selection `xs[m]`: keep the entries of `xs` at the
positions where `m` is `true`. -/
def maskFilter {β : Type} (xs : List β) (m : List Bool) : List β :=
  ((xs.zip m).filter (fun p => p.2)).map Prod.fst

/-- Embedding of `mapping.compute_chunk_masks`:
`np.multiply(chunk_weights, norm_weight)` and
`np.multiply(chunk_weights, std_weight)`, the row-broadcast element-wise
products of the (R, C) weight matrix with the length-C vectors. -/
def compute_chunk_masks (chunk_weights : List (List α))
    (norm_weight std_weight : List α) : List (List α) × List (List α) :=
  (chunk_weights.map (fun row => List.zipWith (· * ·) row norm_weight),
   chunk_weights.map (fun row => List.zipWith (· * ·) row std_weight))

/-- Embedding of `mapping.compute_network_weights`:
`np.sum(std_chunk_masks, axis=1)`, the vector of row sums. -/
def compute_network_weights (std_chunk_masks : List (List α)) : List α :=
  std_chunk_masks.map List.sum

/-- A dense 2-D numpy array as produced by `np.load`: its shape metadata
together with its entries (row-major). -/
structure NpArray (α : Type) where
  rows : Nat
  cols : Nat
  data : List (List α)

/-- Embedding of `mapping.compute_network_maps`:
`np.matmul(std_chunk_masks, chunk_data)`.  Entry (i, j) of the result is the
dot product of row i of `std_chunk_masks` with column j of `chunk_data`; the
result has `chunk_data.cols` columns, as numpy takes the column count from the
right factor's shape. -/
def compute_network_maps (std_chunk_masks : List (List α))
    (chunk_data : NpArray α) : List (List α) :=
  std_chunk_masks.map (fun row =>
    (List.range chunk_data.cols).map (fun j =>
      ((row.zip chunk_data.data).map (fun p => p.1 * p.2.getD j 0)).sum))

/-- Embedding of `mapping.compute_numerator`:
`np.sum(norm_chunk_masks, axis=1)`, the vector of row sums. -/
def compute_numerator (norm_chunk_masks : List (List α)) : List α :=
  norm_chunk_masks.map List.sum

/-- Body of `mapping.compute_denominator` acting on the selected ROI row:
`chunk_masked = np.multiply(np.reshape(cw[cm], (-1,1)), chunk_data[cm,:])`
(the rows of `chunk_data` selected by the chunk mask, each scaled by the
corresponding surviving chunk weight), then
`brain_masked = np.multiply(bw[bm], chunk_masked[:,bm])`
(columns selected by the brain mask, multiplied element-wise by the surviving
brain weights), and finally `np.sum(brain_masked)`. -/
def maskProductSum (cw bw : List α) (cm bm : List Bool)
    (chunk_data : List (List α)) : α :=
  let chunk_masked := List.zipWith (fun w row => row.map (fun x => w * x))
      (maskFilter cw cm) (maskFilter chunk_data cm)
  let brain_masked := chunk_masked.map (fun row =>
      List.zipWith (· * ·) (maskFilter bw bm) (maskFilter row bm))
  (brain_masked.map List.sum).sum

/-- Embedding of `mapping.compute_denominator`: the source indexes every input
array at the ROI index `i` (`chunk_weights[i]`, `chunk_masks[i]`,
`brain_weights[i]`, `brain_masks[i]`) and then performs the masked product-sum
`maskProductSum` on those rows. -/
def compute_denominator (brain_weights chunk_weights : List (List α))
    (brain_masks chunk_masks : List (List Bool))
    (chunk_data : List (List α)) (i : Nat) : α :=
  maskProductSum (chunk_weights.getD i []) (brain_weights.getD i [])
    (chunk_masks.getD i []) (brain_masks.getD i []) chunk_data

/-- The message of the `TypeError` raised by `mapping.process_chunk` on a shape
mismatch.  The source builds it from a plain (non-f-string) literal, so the
braced placeholders are part of the text and the message is one constant
string, independent of the expected and actual shapes. -/
def shapeErrorMessage : String :=
  "Chunk expected to have shape \x7b(config.get(\x27chunk_size\x27), config.get(\x27brain_size\x27))\x7d but instead has shape \x7bnp.shape(chunk_data)\x7d!"

/-- A per-ROI contribution entry while `process_chunk` is building it: the
source uses a Python dict whose keys are added pass by pass (`avgr` first,
then `fz`, `t`, `numerator`/`denominator`, and finally `network_weight`), so
every field is optional here. -/
structure PartialRecord (α : Type) where
  avgr : Option (List α)
  fz : Option (List α)
  t : Option (List α)
  network_weight : Option α
  numerator : Option α
  denominator : Option α

/-- The `contributions` dict of `process_chunk`, as a finite partial map from
ROI path to its (partially built) record. -/
abbrev Contribs (α : Type) : Type := String → Option (PartialRecord α)

/-- Replace the entry of the map at one ROI key. -/
def updKey (m : Contribs α) (roi : String) (v : Option (PartialRecord α)) :
    Contribs α :=
  fun r => if r = roi then v else m r

/-- One `for i, roi in enumerate(rois)` pass over the contributions dict: at
each pair (i, roi), the entry at `roi` is replaced by `g i` applied to the
current entry. -/
def assignLoop (g : Nat → Option (PartialRecord α) → Option (PartialRecord α))
    (l : List (Nat × String)) (m : Contribs α) : Contribs α :=
  l.foldl (fun m p => updKey m p.2 (g p.1 (m p.2))) m

/-- The data `process_chunk` obtains from its external collaborators: the
configured chunk/brain sizes, the brain and chunk masker transforms (each ROI
path to its flat weight vector), the chunk-local norm and std weight vectors,
and the four `np.load`ed statistic arrays for this chunk
(`{chunk}_AvgR.npy`, `{chunk}_AvgR_Fz.npy`, `{chunk}_T.npy`,
`{chunk}_Combo.npy`). -/
structure ChunkEnv (α : Type) where
  chunk_size : Nat
  brain_size : Nat
  brainT : String → List α
  chunkT : String → List α
  norm_weight : List α
  std_weight : List α
  avgrData : NpArray α
  fzData : NpArray α
  tData : NpArray α
  comboData : NpArray α

/-- Embedding of `mapping.process_chunk`.  It projects every ROI through both
maskers, derives the nonzero masks, builds the weighted chunk masks, and then
walks the statistics in source order `avgr, fz, t, combo`: each statistic's
array is shape-checked against `(chunk_size, brain_size)` (a mismatch raises,
modelled as `Except.error`, so nothing later runs), `avgr` initialises each
ROI's dict entry with only the `avgr` key, `fz` and `t` add their keys to the
existing entry (every key exists, having been initialised by the `avgr` pass),
`combo` adds `numerator` and `denominator`, and a final pass adds
`network_weight`. -/
def process_chunk (rois : List String) (env : ChunkEnv α) :
    Except String (Contribs α) :=
  let brain_weights := rois.map env.brainT
  let chunk_weights := rois.map env.chunkT
  let brain_masks := brain_weights.map (fun w => w.map (fun x => decide (x ≠ 0)))
  let chunk_masks := chunk_weights.map (fun w => w.map (fun x => decide (x ≠ 0)))
  let masksPair := compute_chunk_masks chunk_weights env.norm_weight env.std_weight
  let norm_chunk_masks := masksPair.1
  let std_chunk_masks := masksPair.2
  if (env.avgrData.rows, env.avgrData.cols) ≠ (env.chunk_size, env.brain_size) then
    Except.error shapeErrorMessage
  else
    let nmAvgr := compute_network_maps std_chunk_masks env.avgrData
    let c1 := assignLoop
      (fun i _ => some ⟨some (nmAvgr.getD i []), none, none, none, none, none⟩)
      rois.enum (fun _ => none)
    if (env.fzData.rows, env.fzData.cols) ≠ (env.chunk_size, env.brain_size) then
      Except.error shapeErrorMessage
    else
      let nmFz := compute_network_maps std_chunk_masks env.fzData
      let c2 := assignLoop
        (fun i o => o.map (fun e => { e with fz := some (nmFz.getD i []) }))
        rois.enum c1
      if (env.tData.rows, env.tData.cols) ≠ (env.chunk_size, env.brain_size) then
        Except.error shapeErrorMessage
      else
        let nmT := compute_network_maps std_chunk_masks env.tData
        let c3 := assignLoop
          (fun i o => o.map (fun e => { e with t := some (nmT.getD i []) }))
          rois.enum c2
        if (env.comboData.rows, env.comboData.cols) ≠ (env.chunk_size, env.brain_size) then
          Except.error shapeErrorMessage
        else
          let numer := compute_numerator norm_chunk_masks
          let c4 := assignLoop
            (fun i o => o.map (fun e =>
              { e with
                numerator := some (numer.getD i 0)
                denominator := some (compute_denominator brain_weights
                  chunk_weights brain_masks chunk_masks env.comboData.data i) }))
            rois.enum c3
          let network_weights := compute_network_weights std_chunk_masks
          let c5 := assignLoop
            (fun i o => o.map (fun e =>
              { e with network_weight := some (network_weights.getD i 0) }))
            rois.enum c4
          Except.ok c5

/-- Look an ROI up in the result of `process_chunk` (´none´ on failure). -/
def getContrib (e : Except String (Contribs α)) (roi : String) :
    Option (PartialRecord α) :=
  match e with
  | Except.ok m => m roi
  | Except.error _ => none

/-- A finished per-ROI record with the six contribution fields, as consumed
and produced by `mapping.consolidate`. -/
structure Record (α : Type) where
  avgr : List α
  fz : List α
  t : List α
  network_weight : α
  numerator : α
  denominator : α

/-- Field-wise addition of a contribution record into an atlas record, as in
`atlas[roi][field] += contribution[roi][field]` (vector fields add
element-wise, scalar fields add arithmetically). -/
def Record.add (a c : Record α) : Record α :=
  { avgr := List.zipWith (· + ·) a.avgr c.avgr
    fz := List.zipWith (· + ·) a.fz c.fz
    t := List.zipWith (· + ·) a.t c.t
    network_weight := a.network_weight + c.network_weight
    numerator := a.numerator + c.numerator
    denominator := a.denominator + c.denominator }

/-- An atlas (or a finished chunk contribution): a finite partial map from ROI
path to its record, the semantics of the Python dicts that `consolidate`
merges. -/
abbrev Atlas (α : Type) : Type := String → Option (Record α)

/-- The empty atlas the orchestrator starts from. -/
def emptyAtlas : Atlas α := fun _ => none

/-- Embedding of `mapping.consolidate`: for every ROI key of the contribution,
add its six fields into the existing atlas entry, or insert a copy of the
contribution's record when the key is new.  Keys absent from the contribution
are left untouched. -/
def consolidate (contribution atlas : Atlas α) : Atlas α :=
  fun roi =>
    match contribution roi, atlas roi with
    | some c, some a => some (Record.add a c)
    | some c, none => some c
    | none, a => a

/-- Consolidate a list of chunk contributions, in order, into an initially
empty atlas. -/
def foldAtlas (cs : List (Atlas α)) : Atlas α :=
  cs.foldl (fun atlas c => consolidate c atlas) emptyAtlas

/-- Concrete one-ROI contribution used to evaluate the consolidation
theorems. -/
def atlasA : Atlas ℤ :=
  fun r => if r = "roiA" then some ⟨[1, 2], [3, 4], [5, 6], 7, 8, 9⟩ else none

/-- Second concrete one-ROI contribution used to evaluate the consolidation
theorems. -/
def atlasB : Atlas ℤ :=
  fun r => if r = "roiB" then some ⟨[10, 11], [12, 13], [14, 15], 16, 17, 18⟩ else none

/-- Concrete record used to evaluate the doubling theorem. -/
def recC : Record ℤ := ⟨[1, 2], [3], [4], 5, 6, 7⟩

/-- Concrete one-ROI contribution holding `recC`. -/
def atlasC : Atlas ℤ := fun r => if r = "roiC" then some recC else none

/-- Environment whose configuration declares `(chunk_size, brain_size) = (4, 3)`
while every statistic file on disk holds a 4 by 4 array: the shape-mismatch
scenario of the specification. -/
def envShape : ChunkEnv ℤ :=
  { chunk_size := 4
    brain_size := 3
    brainT := fun _ => [1, 1, 1]
    chunkT := fun _ => [1, 1, 1, 1]
    norm_weight := [1, 1, 1, 1]
    std_weight := [1, 1, 1, 1]
    avgrData := ⟨4, 4, List.replicate 4 (List.replicate 4 0)⟩
    fzData := ⟨4, 4, List.replicate 4 (List.replicate 4 0)⟩
    tData := ⟨4, 4, List.replicate 4 (List.replicate 4 0)⟩
    comboData := ⟨4, 4, List.replicate 4 (List.replicate 4 0)⟩ }

/-- Same declared configuration `(4, 3)` but a differently mis-shaped file
(5 by 7), used to show the raised message does not depend on the shapes. -/
def envShape2 : ChunkEnv ℤ :=
  { envShape with avgrData := ⟨5, 7, List.replicate 5 (List.replicate 7 0)⟩ }

/-- Small well-shaped environment on which `process_chunk` succeeds. -/
def envOK : ChunkEnv ℤ :=
  { chunk_size := 2
    brain_size := 2
    brainT := fun _ => [1, 2]
    chunkT := fun _ => [3, 0]
    norm_weight := [1, 1]
    std_weight := [2, 2]
    avgrData := ⟨2, 2, [[1, 0], [0, 1]]⟩
    fzData := ⟨2, 2, [[1, 2], [3, 4]]⟩
    tData := ⟨2, 2, [[5, 6], [7, 8]]⟩
    comboData := ⟨2, 2, [[1, 1], [1, 1]]⟩ }

end PFC

namespace PFC

variable {α : Type} [CommRing α] [DecidableEq α]

lemma zipWith_add_comm (xs ys : List α) :
    List.zipWith (· + ·) xs ys = List.zipWith (· + ·) ys xs := by
  induction xs generalizing ys with
  | nil => cases ys <;> simp
  | cons x xs ih => cases ys <;> simp [add_comm, ih]

lemma zipWith_add_assoc (xs ys zs : List α) :
    List.zipWith (· + ·) (List.zipWith (· + ·) xs ys) zs =
      List.zipWith (· + ·) xs (List.zipWith (· + ·) ys zs) := by
  induction xs generalizing ys zs with
  | nil => cases ys <;> cases zs <;> simp
  | cons x xs ih => cases ys <;> cases zs <;> simp [add_assoc, ih]

lemma zipWith_add_self (xs : List α) :
    List.zipWith (· + ·) xs xs = xs.map (fun x => 2 * x) := by
  induction xs with
  | nil => simp
  | cons x xs ih => simp [two_mul, ih]

lemma recordAdd_comm (a b : Record α) : Record.add a b = Record.add b a := by
  cases a; cases b
  simp only [Record.add, Record.mk.injEq]
  exact ⟨zipWith_add_comm _ _, zipWith_add_comm _ _, zipWith_add_comm _ _,
    add_comm _ _, add_comm _ _, add_comm _ _⟩

lemma recordAdd_assoc (a b c : Record α) :
    Record.add (Record.add a b) c = Record.add a (Record.add b c) := by
  cases a; cases b; cases c
  simp only [Record.add, Record.mk.injEq]
  exact ⟨zipWith_add_assoc _ _ _, zipWith_add_assoc _ _ _, zipWith_add_assoc _ _ _,
    add_assoc _ _ _, add_assoc _ _ _, add_assoc _ _ _⟩

lemma consolidate_empty_left (a : Atlas α) : consolidate emptyAtlas a = a := by
  funext r
  simp [consolidate, emptyAtlas]

lemma consolidate_empty_right (c : Atlas α) : consolidate c emptyAtlas = c := by
  funext r
  cases h : c r <;> simp [consolidate, emptyAtlas, h]

lemma consolidate_comm (a b : Atlas α) : consolidate a b = consolidate b a := by
  funext r
  cases ha : a r <;> cases hb : b r <;>
    simp [consolidate, ha, hb, recordAdd_comm]

lemma consolidate_assoc (x c a : Atlas α) :
    consolidate x (consolidate c a) = consolidate (consolidate x c) a := by
  funext r
  cases hx : x r <;> cases hc : c r <;> cases ha : a r <;>
    simp [consolidate, hx, hc, ha, recordAdd_assoc]

lemma foldl_consolidate (a : Atlas α) (l : List (Atlas α)) :
    l.foldl (fun atlas c => consolidate c atlas) a = consolidate (foldAtlas l) a := by
  induction l generalizing a with
  | nil => simp [foldAtlas, consolidate_empty_left]
  | cons c l ih =>
    have h1 : foldAtlas (c :: l) = consolidate (foldAtlas l) c := by
      simp only [foldAtlas, List.foldl_cons]
      rw [consolidate_empty_right]
      exact ih c
    simp only [List.foldl_cons, ih (consolidate c a), h1]
    rw [← consolidate_assoc]

lemma consolidate_right_comm :
    RightCommutative (fun (atlas c : Atlas α) => consolidate c atlas) := by
  refine ⟨fun b a1 a2 => ?_⟩
  rw [consolidate_assoc, consolidate_assoc, consolidate_comm a2 a1]

/-- C3: consolidation of chunk contributions is order-independent, and
consolidating a partition of the contributions group by group and then merging
the group atlases (one merged into the other with `consolidate`) gives the
same atlas as consolidating everything into one atlas. -/
theorem consolidate_comm_assoc (cs cs2 gs1 gs2 : List (Atlas α))
    (hp : cs.Perm cs2) :
    foldAtlas cs = foldAtlas cs2 ∧
    foldAtlas (gs1 ++ gs2) = consolidate (foldAtlas gs1) (foldAtlas gs2) := by
  constructor
  · exact @List.Perm.foldl_eq _ _ _ _ _ consolidate_right_comm hp emptyAtlas
  · show (gs1 ++ gs2).foldl (fun atlas c => consolidate c atlas) emptyAtlas = _
    rw [List.foldl_append]
    have h2 : (gs1.foldl (fun atlas c => consolidate c atlas) emptyAtlas) = foldAtlas gs1 := rfl
    rw [h2, foldl_consolidate, consolidate_comm]

/-- Witness for C3 at two concrete single-ROI contributions. -/
theorem consolidate_comm_assoc_witness :
    foldAtlas [atlasA, atlasB] = foldAtlas [atlasB, atlasA] :=
  (consolidate_comm_assoc [atlasA, atlasB] [atlasB, atlasA] [] []
    (List.Perm.swap atlasB atlasA [])).1

/-- C4: consolidating a single contribution into the empty atlas reproduces
the contribution exactly, entry for entry and field for field. -/
theorem consolidate_roundtrip (c : Atlas α) : consolidate c emptyAtlas = c :=
  consolidate_empty_right c

/-- C5: consolidating the same contribution twice into an initially empty
atlas doubles every field of every ROI entry, so `consolidate` performs no
deduplication. -/
theorem consolidate_not_idempotent (c : Atlas α) (roi : String) (e : Record α)
    (h : c roi = some e) :
    consolidate c (consolidate c emptyAtlas) roi = some
      { avgr := e.avgr.map (fun x => 2 * x)
        fz := e.fz.map (fun x => 2 * x)
        t := e.t.map (fun x => 2 * x)
        network_weight := 2 * e.network_weight
        numerator := 2 * e.numerator
        denominator := 2 * e.denominator } := by
  have h1 : consolidate c emptyAtlas roi = some e := by
    rw [consolidate_empty_right]; exact h
  cases e with
  | mk ea ef et en enum eden =>
    simp only [consolidate, h, emptyAtlas, Record.add, Option.some.injEq,
      Record.mk.injEq]
    constructor
    · exact zipWith_add_self _
    constructor
    · exact zipWith_add_self _
    constructor
    · exact zipWith_add_self _
    exact ⟨(two_mul _).symm, (two_mul _).symm, (two_mul _).symm⟩

/-- Witness for C5 at a concrete one-ROI contribution. -/
theorem consolidate_not_idempotent_witness :
    atlasC "roiC" = some recC ∧
    consolidate atlasC (consolidate atlasC emptyAtlas) "roiC" = some
      { avgr := recC.avgr.map (fun x => 2 * x)
        fz := recC.fz.map (fun x => 2 * x)
        t := recC.t.map (fun x => 2 * x)
        network_weight := 2 * recC.network_weight
        numerator := 2 * recC.numerator
        denominator := 2 * recC.denominator } :=
  ⟨rfl, consolidate_not_idempotent atlasC "roiC" recC rfl⟩

lemma getD_map_lt {β γ : Type} (f : β → γ) (l : List β) (i : Nat)
    (hi : i < l.length) (d1 : β) (d2 : γ) :
    (l.map f).getD i d2 = f (l.getD i d1) := by
  rw [List.getD_eq_getElem _ _ (by simpa using hi), List.getD_eq_getElem _ _ hi,
    List.getElem_map]

lemma getD_zipWith_lt {β γ δ : Type} (f : β → γ → δ) (xs : List β) (ys : List γ)
    (j : Nat) (hx : j < xs.length) (hy : j < ys.length) (d1 : β) (d2 : γ) (d3 : δ) :
    (List.zipWith f xs ys).getD j d3 = f (xs.getD j d1) (ys.getD j d2) := by
  have hz : j < (List.zipWith f xs ys).length := by
    rw [List.length_zipWith]; exact lt_min hx hy
  rw [List.getD_eq_getElem _ _ hz, List.getD_eq_getElem _ _ hx,
    List.getD_eq_getElem _ _ hy, List.getElem_zipWith]

lemma zipWith_eq_map_zip {β γ δ : Type} (f : β → γ → δ) (xs : List β)
    (ys : List γ) :
    List.zipWith f xs ys = (xs.zip ys).map (fun p => f p.1 p.2) := by
  induction xs generalizing ys with
  | nil => simp
  | cons x xs ih => cases ys <;> simp [ih]

lemma map_zip_eq_range {β γ δ : Type} (h : β × γ → δ) (d1 : β) (d2 : γ)
    (n : Nat) (xs : List β) (ys : List γ)
    (hx : xs.length = n) (hy : ys.length = n) :
    (xs.zip ys).map h =
      (List.range n).map (fun k => h (xs.getD k d1, ys.getD k d2)) := by
  induction xs generalizing ys n with
  | nil =>
    subst hx
    simp at hy
    simp [hy]
  | cons x xs ih =>
    cases ys with
    | nil => exfalso; simp at hx hy; omega
    | cons y ys =>
      cases n with
      | zero => simp at hx
      | succ n =>
        have hx2 : xs.length = n := by simpa using hx
        have hy2 : ys.length = n := by simpa using hy
        simp only [List.zip_cons_cons, List.map_cons, List.range_succ_eq_map,
          List.map_map, Function.comp, List.getD_cons_zero, List.getD_cons_succ]
        exact congrArg _ (ih n ys hx2 hy2)

lemma compute_network_maps_length (M : List (List α)) (D : NpArray α) :
    (compute_network_maps M D).length = M.length := by
  simp [compute_network_maps]

lemma compute_network_maps_row_length (M : List (List α)) (D : NpArray α) :
    ∀ row ∈ compute_network_maps M D, row.length = D.cols := by
  intro row hr
  rw [compute_network_maps] at hr
  obtain ⟨a, _, rfl⟩ := List.mem_map.mp hr
  simp

lemma compute_network_maps_entry (M : List (List α)) (D : NpArray α)
    (C i j : Nat) (hrow : (M.getD i []).length = C) (hD : D.data.length = C)
    (hi : i < M.length) (hj : j < D.cols) :
    ((compute_network_maps M D).getD i []).getD j 0 =
      ((List.range C).map (fun k =>
        (M.getD i []).getD k 0 * ((D.data.getD k []).getD j 0))).sum := by
  rw [compute_network_maps, getD_map_lt _ _ _ hi []]
  rw [getD_map_lt _ _ _ (by simpa using hj) 0, List.getD_eq_getElem _ _
    (by simpa using hj), List.getElem_range]
  rw [map_zip_eq_range _ 0 [] C _ _ hrow hD]

lemma compute_network_maps_zero (R C : Nat) (D : NpArray α) :
    compute_network_maps (List.replicate R (List.replicate C (0 : α))) D =
      List.replicate R (List.replicate D.cols 0) := by
  rw [compute_network_maps, List.map_replicate]
  congr 1
  rw [List.eq_replicate_iff]
  refine ⟨by simp, ?_⟩
  intro b hb
  obtain ⟨j, _, rfl⟩ := List.mem_map.mp hb
  apply List.sum_eq_zero
  intro x hx
  obtain ⟨p, hp, rfl⟩ := List.mem_map.mp hx
  obtain ⟨p1, p2⟩ := p
  have h1 : p1 ∈ List.replicate C (0 : α) := (List.of_mem_zip hp).1
  rw [List.eq_of_mem_replicate h1]
  exact zero_mul _

/-- C7: `compute_network_maps M D` is the standard matrix product: it has one
row per row of M, every row has `D.cols` entries, entry (i, j) is the dot
product over the inner dimension C, and multiplying an all-zeros R by C matrix
by any D yields the all-zeros matrix. -/
theorem compute_network_maps_matmul (M : List (List α)) (D : NpArray α)
    (R C i j : Nat) (hrow : (M.getD i []).length = C) (hD : D.data.length = C)
    (hi : i < M.length) (hj : j < D.cols) :
    (compute_network_maps M D).length = M.length ∧
    (∀ row ∈ compute_network_maps M D, row.length = D.cols) ∧
    ((compute_network_maps M D).getD i []).getD j 0 =
      ((List.range C).map (fun k =>
        (M.getD i []).getD k 0 * ((D.data.getD k []).getD j 0))).sum ∧
    compute_network_maps (List.replicate R (List.replicate C (0 : α))) D =
      List.replicate R (List.replicate D.cols 0) :=
  ⟨compute_network_maps_length M D, compute_network_maps_row_length M D,
    compute_network_maps_entry M D C i j hrow hD hi hj,
    compute_network_maps_zero R C D⟩

/-- Witness for C7 at a concrete 1 by 2 mask matrix and 2 by 2 data array. -/
theorem compute_network_maps_matmul_witness :
    ((compute_network_maps ([[1, 2]] : List (List ℤ)) ⟨2, 2, [[3, 4], [5, 6]]⟩).getD 0 []).getD 0 0 =
      ((List.range 2).map (fun k =>
        (([[1, 2]] : List (List ℤ)).getD 0 []).getD k 0 *
          (([[3, 4], [5, 6]] : List (List ℤ)).getD k []).getD 0 0)).sum :=
  (compute_network_maps_matmul ([[1, 2]] : List (List ℤ)) ⟨2, 2, [[3, 4], [5, 6]]⟩
    1 2 0 0 (by decide) (by decide) (by decide) (by decide)).2.2.1

/-- C8: `compute_chunk_masks` returns the two row-broadcast element-wise
products of the weight matrix with the norm and std vectors; both outputs have
the same shape (R, C) as the weight matrix. -/
theorem compute_chunk_masks_broadcast (cw : List (List α)) (nw sw : List α)
    (C i j : Nat) (hrow : ∀ row ∈ cw, row.length = C) (hn : nw.length = C)
    (hs : sw.length = C) (hi : i < cw.length) (hj : j < C) :
    (compute_chunk_masks cw nw sw).1.length = cw.length ∧
    (compute_chunk_masks cw nw sw).2.length = cw.length ∧
    (∀ row ∈ (compute_chunk_masks cw nw sw).1, row.length = C) ∧
    (∀ row ∈ (compute_chunk_masks cw nw sw).2, row.length = C) ∧
    ((compute_chunk_masks cw nw sw).1.getD i []).getD j 0 =
      ((cw.getD i []).getD j 0) * (nw.getD j 0) ∧
    ((compute_chunk_masks cw nw sw).2.getD i []).getD j 0 =
      ((cw.getD i []).getD j 0) * (sw.getD j 0) := by
  have hiC : (cw.getD i []).length = C := by
    refine hrow _ ?_
    rw [List.getD_eq_getElem _ _ hi]
    exact List.getElem_mem hi
  refine ⟨by simp [compute_chunk_masks], by simp [compute_chunk_masks], ?_, ?_, ?_, ?_⟩
  · intro row hr
    obtain ⟨a, ha, rfl⟩ := List.mem_map.mp hr
    rw [List.length_zipWith, hrow a ha, hn, min_self]
  · intro row hr
    obtain ⟨a, ha, rfl⟩ := List.mem_map.mp hr
    rw [List.length_zipWith, hrow a ha, hs, min_self]
  · show ((cw.map (fun row => List.zipWith (· * ·) row nw)).getD i []).getD j 0 = _
    rw [getD_map_lt _ _ _ hi []]
    exact getD_zipWith_lt _ _ _ j (by omega) (by omega) 0 0 0
  · show ((cw.map (fun row => List.zipWith (· * ·) row sw)).getD i []).getD j 0 = _
    rw [getD_map_lt _ _ _ hi []]
    exact getD_zipWith_lt _ _ _ j (by omega) (by omega) 0 0 0

/-- Witness for C8 at a concrete 2 by 2 weight matrix. -/
theorem compute_chunk_masks_broadcast_witness :
    ((compute_chunk_masks ([[1, 2], [3, 4]] : List (List ℤ)) [5, 6] [7, 8]).1.getD 0 []).getD 1 0 =
      ((([[1, 2], [3, 4]] : List (List ℤ)).getD 0 []).getD 1 0) * (([5, 6] : List ℤ).getD 1 0) :=
  (compute_chunk_masks_broadcast ([[1, 2], [3, 4]] : List (List ℤ)) [5, 6] [7, 8]
    2 0 1 (by decide) (by decide) (by decide) (by decide) (by decide)).2.2.2.2.1

/-- C9: `compute_network_weights` maps a matrix to its vector of row sums, and
on the documented scenario the std-weighted chunk masks of
`chunk_weights = [[1,0,2,0],[0,1,0,1]]` with `std_weight = [2,2,2,2]` are
`[[2,0,4,0],[0,2,0,2]]`, whose network weights are `[6, 4]`. -/
theorem compute_network_weights_rowsum (m : List (List α)) (i : Nat)
    (hi : i < m.length) :
    (compute_network_weights m).length = m.length ∧
    (compute_network_weights m).getD i 0 = (m.getD i []).sum ∧
    (compute_chunk_masks ([[1, 0, 2, 0], [0, 1, 0, 1]] : List (List α))
      [1, 1, 1, 1] [2, 2, 2, 2]).2 = [[2, 0, 4, 0], [0, 2, 0, 2]] ∧
    compute_network_weights ([[2, 0, 4, 0], [0, 2, 0, 2]] : List (List α)) =
      [6, 4] := by
  refine ⟨by simp [compute_network_weights], ?_, ?_, ?_⟩
  · show (m.map List.sum).getD i 0 = (m.getD i []).sum
    exact getD_map_lt List.sum m i hi [] 0
  · show ([[1, 0, 2, 0], [0, 1, 0, 1]] : List (List α)).map
      (fun row => List.zipWith (· * ·) row [2, 2, 2, 2]) = _
    norm_num
  · show ([[2, 0, 4, 0], [0, 2, 0, 2]] : List (List α)).map List.sum = _
    norm_num

/-- Witness for C9 at a concrete matrix. -/
theorem compute_network_weights_rowsum_witness :
    (compute_network_weights ([[1, 2], [3, 4]] : List (List ℤ))).getD 1 0 =
      (([[1, 2], [3, 4]] : List (List ℤ)).getD 1 []).sum :=
  (compute_network_weights_rowsum ([[1, 2], [3, 4]] : List (List ℤ)) 1
    (by decide)).2.1

lemma if_true_bool {γ : Type} (a b : γ) : (if (true = true) then a else b) = a :=
  if_pos rfl

lemma if_false_bool {γ : Type} (a b : γ) : (if (false = true) then a else b) = b :=
  if_neg (by simp)

lemma maskFilter_nil_mask {β : Type} (xs : List β) : maskFilter xs [] = [] := by
  simp [maskFilter]

lemma maskFilter_nil {β : Type} (m : List Bool) : maskFilter ([] : List β) m = [] := by
  simp [maskFilter]

lemma maskFilter_cons {β : Type} (x : β) (xs : List β) (b : Bool) (m : List Bool) :
    maskFilter (x :: xs) (b :: m) =
      if b then x :: maskFilter xs m else maskFilter xs m := by
  cases b <;> simp [maskFilter, List.filter_cons]

lemma maskFilter_zip {β γ : Type} (xs : List β) (ys : List γ) (m : List Bool)
    (hx : xs.length = m.length) (hy : ys.length = m.length) :
    (maskFilter xs m).zip (maskFilter ys m) = maskFilter (xs.zip ys) m := by
  induction m generalizing xs ys with
  | nil =>
    rw [List.length_eq_zero.mp hx, List.length_eq_zero.mp hy]
    simp [maskFilter_nil]
  | cons b m ih =>
    cases xs with
    | nil => exfalso; simp at hx
    | cons x xs =>
      cases ys with
      | nil => exfalso; simp at hy
      | cons y ys =>
        have hx2 : xs.length = m.length := by simpa using hx
        have hy2 : ys.length = m.length := by simpa using hy
        rw [List.zip_cons_cons, maskFilter_cons, maskFilter_cons, maskFilter_cons]
        cases b
        · simpa using ih xs ys hx2 hy2
        · simpa using ih xs ys hx2 hy2

lemma maskFilter_map {β γ : Type} (g : β → γ) (xs : List β) (m : List Bool) :
    maskFilter (xs.map g) m = (maskFilter xs m).map g := by
  induction xs generalizing m with
  | nil => simp [maskFilter_nil]
  | cons x xs ih =>
    cases m with
    | nil => simp [maskFilter_nil_mask]
    | cons b m =>
      rw [List.map_cons, maskFilter_cons, maskFilter_cons]
      cases b
      · simpa using ih m
      · simpa using ih m

lemma maskFilter_map_sum {β : Type} (f : β → α) (d : β) (zs : List β)
    (m : List Bool) (hz : zs.length = m.length) :
    ((maskFilter zs m).map f).sum =
      ((List.range m.length).map (fun j =>
        if m.getD j false then f (zs.getD j d) else 0)).sum := by
  induction m generalizing zs with
  | nil =>
    rw [List.length_eq_zero.mp hz]
    simp [maskFilter_nil]
  | cons b m ih =>
    cases zs with
    | nil => exfalso; simp at hz
    | cons z zs =>
      have hz2 : zs.length = m.length := by simpa using hz
      have hcomp : List.map ((fun j =>
            if (b :: m).getD j false then f ((z :: zs).getD j d) else 0) ∘ Nat.succ)
            (List.range m.length) =
          List.map (fun j => if m.getD j false then f (zs.getD j d) else 0)
            (List.range m.length) :=
        List.map_congr_left (fun j _ => by
          simp [Function.comp, List.getD_cons_succ])
      rw [maskFilter_cons, List.length_cons, List.range_succ_eq_map, List.map_cons,
        List.map_map, List.sum_cons, hcomp, ← ih zs hz2]
      cases b
      · simp
      · simp

lemma getD_zip_lt {β γ : Type} (xs : List β) (ys : List γ) (j : Nat)
    (hx : j < xs.length) (hy : j < ys.length) (d1 : β) (d2 : γ) :
    (xs.zip ys).getD j (d1, d2) = (xs.getD j d1, ys.getD j d2) := by
  have hz : j < (xs.zip ys).length := by
    rw [List.length_zip]; exact lt_min hx hy
  rw [List.getD_eq_getElem _ _ hz, List.getD_eq_getElem _ _ hx,
    List.getD_eq_getElem _ _ hy, List.getElem_zip]

lemma denomInner_sum (bw row : List α) (bm : List Bool) (w : α)
    (h3 : bw.length = bm.length) (hr : row.length = bm.length) :
    (List.zipWith (· * ·) (maskFilter bw bm)
      (maskFilter (row.map (fun x => w * x)) bm)).sum =
      ((List.range bm.length).map (fun k =>
        if bm.getD k false then w * (row.getD k 0) * (bw.getD k 0) else 0)).sum := by
  rw [maskFilter_map, List.zipWith_map_right, zipWith_eq_map_zip,
    maskFilter_zip bw row bm h3 hr,
    maskFilter_map_sum (fun p => p.1 * (w * p.2)) ((0 : α), (0 : α)) _ _
      (by rw [List.length_zip, h3, hr, min_self])]
  refine congrArg List.sum (List.map_congr_left ?_)
  intro k hk
  have hkm : k < bm.length := List.mem_range.mp hk
  by_cases hb : bm.getD k false
  · simp only [hb, if_true]
    rw [getD_zip_lt bw row k (by omega) (by omega) 0 0]
    ring
  · simp only [hb, Bool.false_eq_true, if_false]

lemma maskProductSum_eq (cw bw : List α) (cm bm : List Bool)
    (data : List (List α)) (h1 : cw.length = cm.length)
    (h2 : data.length = cm.length) (h3 : bw.length = bm.length)
    (h4 : ∀ row ∈ data, row.length = bm.length) :
    maskProductSum cw bw cm bm data =
      ((List.range cm.length).map (fun j =>
        if cm.getD j false then
          ((List.range bm.length).map (fun k =>
            if bm.getD k false then
              (cw.getD j 0) * ((data.getD j []).getD k 0) * (bw.getD k 0)
            else 0)).sum
        else 0)).sum := by
  rw [maskProductSum]
  simp only [List.map_map, List.map_zipWith]
  rw [zipWith_eq_map_zip, maskFilter_zip cw data cm h1 h2,
    maskFilter_map_sum _ ((0 : α), ([] : List α)) _ _
      (by rw [List.length_zip, h1, h2, min_self])]
  refine congrArg List.sum (List.map_congr_left ?_)
  intro j hj
  have hjm : j < cm.length := List.mem_range.mp hj
  by_cases hc : cm.getD j false
  · simp only [hc, if_true, Function.comp]
    rw [getD_zip_lt cw data j (by omega) (by omega) 0 []]
    have hrl : (data.getD j []).length = bm.length := by
      refine h4 _ ?_
      rw [List.getD_eq_getElem _ _ (by omega : j < data.length)]
      exact List.getElem_mem _
    exact denomInner_sum bw (data.getD j []) bm (cw.getD j 0) h3 hrl
  · simp only [hc, Bool.false_eq_true, if_false]

/-- C1: `compute_denominator` for ROI index i, with the masks being the
nonzero masks of the weight rows, first selects the rows of `chunk_data` on
the chunk-mask support (multiplying them by the surviving chunk weights), then
selects the columns of the result on the brain-mask support (multiplying by
the surviving brain weights), and returns the sum of all resulting entries:
it equals the double sum, over chunk-mask-selected row indices j and
brain-mask-selected column indices k, of
`chunk_weights[i][j] * chunk_data[j][k] * brain_weights[i][k]`. -/
theorem compute_denominator_masked (brain_weights chunk_weights : List (List α))
    (brain_masks chunk_masks : List (List Bool)) (data : List (List α)) (i : Nat)
    (hcm : chunk_masks.getD i [] =
      (chunk_weights.getD i []).map (fun x => decide (x ≠ 0)))
    (hbm : brain_masks.getD i [] =
      (brain_weights.getD i []).map (fun x => decide (x ≠ 0)))
    (hlen : data.length = (chunk_weights.getD i []).length)
    (hrow : ∀ row ∈ data, row.length = (brain_weights.getD i []).length) :
    compute_denominator brain_weights chunk_weights brain_masks chunk_masks data i =
      ((List.range (chunk_weights.getD i []).length).map (fun j =>
        if (chunk_masks.getD i []).getD j false then
          ((List.range (brain_weights.getD i []).length).map (fun k =>
            if (brain_masks.getD i []).getD k false then
              ((chunk_weights.getD i []).getD j 0) *
                ((data.getD j []).getD k 0) * ((brain_weights.getD i []).getD k 0)
            else 0)).sum
        else 0)).sum := by
  have hclen : (chunk_masks.getD i []).length = (chunk_weights.getD i []).length := by
    rw [hcm, List.length_map]
  have hblen : (brain_masks.getD i []).length = (brain_weights.getD i []).length := by
    rw [hbm, List.length_map]
  rw [compute_denominator,
    maskProductSum_eq _ _ _ _ _ hclen.symm (by omega) hblen.symm
      (fun row hr => by rw [hblen]; exact hrow row hr),
    hclen, hblen]

/-- Witness for C1 at a concrete one-ROI batch with a 3 by 2 data array. -/
theorem compute_denominator_masked_witness :
    compute_denominator ([[7, 0]] : List (List ℤ)) [[1, 0, 2]]
      [[true, false]] [[true, false, true]] [[1, 2], [3, 4], [5, 6]] 0 =
      ((List.range 3).map (fun j =>
        if ([[true, false, true]].getD 0 []).getD j false then
          ((List.range 2).map (fun k =>
            if ([[true, false]].getD 0 []).getD k false then
              (([[1, 0, 2]] : List (List ℤ)).getD 0 []).getD j 0 *
                (([[1, 2], [3, 4], [5, 6]] : List (List ℤ)).getD j []).getD k 0 *
                (([[7, 0]] : List (List ℤ)).getD 0 []).getD k 0
            else 0)).sum
        else 0)).sum :=
  compute_denominator_masked ([[7, 0]] : List (List ℤ)) [[1, 0, 2]]
    [[true, false]] [[true, false, true]] [[1, 2], [3, 4], [5, 6]] 0
    (by decide) (by decide) (by decide) (by decide)

/-- C10: when the masks are exactly the nonzero masks of the weight rows, the
mask compaction inside `compute_denominator` only skips terms that are zero:
the result equals the full unmasked bilinear form, the sum over every row
index j and every column index k of
`chunk_weights[i][j] * chunk_data[j][k] * brain_weights[i][k]`. -/
theorem compute_denominator_unmasked (brain_weights chunk_weights : List (List α))
    (brain_masks chunk_masks : List (List Bool)) (data : List (List α)) (i : Nat)
    (hcm : chunk_masks.getD i [] =
      (chunk_weights.getD i []).map (fun x => decide (x ≠ 0)))
    (hbm : brain_masks.getD i [] =
      (brain_weights.getD i []).map (fun x => decide (x ≠ 0)))
    (hlen : data.length = (chunk_weights.getD i []).length)
    (hrow : ∀ row ∈ data, row.length = (brain_weights.getD i []).length) :
    compute_denominator brain_weights chunk_weights brain_masks chunk_masks data i =
      ((List.range (chunk_weights.getD i []).length).map (fun j =>
        ((List.range (brain_weights.getD i []).length).map (fun k =>
          ((chunk_weights.getD i []).getD j 0) * ((data.getD j []).getD k 0) *
            ((brain_weights.getD i []).getD k 0))).sum)).sum := by
  have hclen : (chunk_masks.getD i []).length = (chunk_weights.getD i []).length := by
    rw [hcm, List.length_map]
  have hblen : (brain_masks.getD i []).length = (brain_weights.getD i []).length := by
    rw [hbm, List.length_map]
  rw [compute_denominator,
    maskProductSum_eq _ _ _ _ _ hclen.symm (by omega) hblen.symm
      (fun row hr => by rw [hblen]; exact hrow row hr),
    hclen, hblen]
  refine congrArg List.sum (List.map_congr_left ?_)
  intro j hj
  have hjm : j < (chunk_weights.getD i []).length := List.mem_range.mp hj
  have hcj : (chunk_masks.getD i []).getD j false =
      decide ((chunk_weights.getD i []).getD j 0 ≠ 0) := by
    rw [hcm, getD_map_lt _ _ _ hjm 0]
  have hinner : ∀ k ∈ List.range (brain_weights.getD i []).length,
      (if (brain_masks.getD i []).getD k false then
        ((chunk_weights.getD i []).getD j 0) * ((data.getD j []).getD k 0) *
          ((brain_weights.getD i []).getD k 0)
      else 0) =
      ((chunk_weights.getD i []).getD j 0) * ((data.getD j []).getD k 0) *
        ((brain_weights.getD i []).getD k 0) := by
    intro k hk
    have hkm : k < (brain_weights.getD i []).length := List.mem_range.mp hk
    have hbk : (brain_masks.getD i []).getD k false =
        decide ((brain_weights.getD i []).getD k 0 ≠ 0) := by
      rw [hbm, getD_map_lt _ _ _ hkm 0]
    by_cases hz : (brain_weights.getD i []).getD k 0 = 0
    · have hd : decide ((brain_weights.getD i []).getD k 0 ≠ 0) = false := by
        rw [hz]; simp
      rw [hbk, hd, if_false_bool, hz, mul_zero]
    · have hd : decide ((brain_weights.getD i []).getD k 0 ≠ 0) = true := by
        simpa using hz
      rw [hbk, hd, if_true_bool]
  by_cases hcz : (chunk_weights.getD i []).getD j 0 = 0
  · have hd : decide ((chunk_weights.getD i []).getD j 0 ≠ 0) = false := by
      rw [hcz]; simp
    rw [hcj, hd, if_false_bool]
    refine (List.sum_eq_zero ?_).symm
    intro x hx
    obtain ⟨k, _, rfl⟩ := List.mem_map.mp hx
    rw [hcz, zero_mul, zero_mul]
  · have hd : decide ((chunk_weights.getD i []).getD j 0 ≠ 0) = true := by
      simpa using hcz
    rw [hcj, hd, if_true_bool]
    exact congrArg List.sum (List.map_congr_left hinner)

/-- C2: on a chunk file whose array shape (4, 4) disagrees with the configured
`(chunk_size, brain_size) = (4, 3)`, `process_chunk` fails before any numeric
computation, but the raised message is one constant string: the source line
`raise TypeError("Chunk expected to have shape {...} but instead has shape
{...}!")` lacks the f-string prefix, so the braced placeholders are never
interpolated.  The identical message is raised for a differently mis-shaped
(5, 7) file, and the message contains no digit at all, so it identifies
neither the expected nor the actual shape. -/
theorem process_chunk_shape_bug :
    process_chunk ["roi"] envShape = Except.error shapeErrorMessage ∧
    process_chunk ["roi"] envShape2 = Except.error shapeErrorMessage ∧
    shapeErrorMessage.toList.all (fun c => !c.isDigit) = true :=
  ⟨rfl, rfl, by decide⟩

/-- Witness for C10 at the same concrete one-ROI batch. -/
theorem compute_denominator_unmasked_witness :
    compute_denominator ([[7, 0]] : List (List ℤ)) [[1, 0, 2]]
      [[true, false]] [[true, false, true]] [[1, 2], [3, 4], [5, 6]] 0 =
      ((List.range 3).map (fun j =>
        ((List.range 2).map (fun k =>
          (([[1, 0, 2]] : List (List ℤ)).getD 0 []).getD j 0 *
            (([[1, 2], [3, 4], [5, 6]] : List (List ℤ)).getD j []).getD k 0 *
            (([[7, 0]] : List (List ℤ)).getD 0 []).getD k 0)).sum)).sum :=
  compute_denominator_unmasked ([[7, 0]] : List (List ℤ)) [[1, 0, 2]]
    [[true, false]] [[true, false, true]] [[1, 2], [3, 4], [5, 6]] 0
    (by decide) (by decide) (by decide) (by decide)

lemma updKey_other (m : Contribs α) (roi : String) (v : Option (PartialRecord α))
    (r : String) (h : r ≠ roi) : updKey m roi v r = m r := by
  simp [updKey, h]

lemma updKey_self (m : Contribs α) (roi : String) (v : Option (PartialRecord α)) :
    updKey m roi v roi = v := by
  simp [updKey]

lemma assignLoop_pres (g : Nat → Option (PartialRecord α) → Option (PartialRecord α))
    (l : List (Nat × String)) (m : Contribs α) (r : String)
    (Q : Option (PartialRecord α) → Prop)
    (hg : ∀ p ∈ l, ∀ o, Q o → Q (g p.1 o)) (h : Q (m r)) :
    Q (assignLoop g l m r) := by
  induction l generalizing m with
  | nil => exact h
  | cons q l ih =>
    show Q (assignLoop g l (updKey m q.2 (g q.1 (m q.2))) r)
    refine ih _ (fun p hp o ho => hg p (List.mem_cons_of_mem q hp) o ho) ?_
    by_cases he : r = q.2
    · rw [he, updKey_self]
      rw [he] at h
      exact hg q (List.mem_cons_self q l) _ h
    · rw [updKey_other _ _ _ _ he]
      exact h

lemma assignLoop_mem (g : Nat → Option (PartialRecord α) → Option (PartialRecord α))
    (l : List (Nat × String)) (m : Contribs α)
    (P Q : Option (PartialRecord α) → Prop)
    (hg : ∀ p ∈ l, ∀ o, P o ∨ Q o → Q (g p.1 o))
    (hm : ∀ p ∈ l, P (m p.2) ∨ Q (m p.2)) :
    ∀ p ∈ l, Q (assignLoop g l m p.2) := by
  induction l generalizing m with
  | nil => intro p hp; cases hp
  | cons q l ih =>
    intro p hp
    show Q (assignLoop g l (updKey m q.2 (g q.1 (m q.2))) p.2)
    have hq : Q (updKey m q.2 (g q.1 (m q.2)) q.2) := by
      rw [updKey_self]
      exact hg q (List.mem_cons_self q l) _ (hm q (List.mem_cons_self q l))
    have hm2 : ∀ p2 ∈ l,
        P (updKey m q.2 (g q.1 (m q.2)) p2.2) ∨
        Q (updKey m q.2 (g q.1 (m q.2)) p2.2) := by
      intro p2 hp2
      by_cases he : p2.2 = q.2
      · right; rw [he, updKey_self]
        exact hg q (List.mem_cons_self q l) _ (hm q (List.mem_cons_self q l))
      · rw [updKey_other _ _ _ _ he]
        exact hm p2 (List.mem_cons_of_mem q hp2)
    rcases List.mem_cons.mp hp with rfl | hp2
    · exact assignLoop_pres g l _ p.2 Q
        (fun p3 hp3 o ho => hg p3 (List.mem_cons_of_mem p hp3) o (Or.inr ho)) hq
    · exact ih _ (fun p3 hp3 o ho => hg p3 (List.mem_cons_of_mem q hp3) o ho) hm2 p hp2

lemma nm_row_length (M : List (List α)) (D : NpArray α) (i : Nat)
    (hi : i < M.length) :
    ((compute_network_maps M D).getD i []).length = D.cols := by
  rw [List.getD_eq_getElem _ _ (by rw [compute_network_maps_length]; exact hi)]
  exact compute_network_maps_row_length M D _ (List.getElem_mem _)

lemma scm_length (cw : List (List α)) (nw sw : List α) :
    ((compute_chunk_masks cw nw sw).2).length = cw.length := by
  simp [compute_chunk_masks]

lemma mem_enumFrom_of_mem (roi : String) :
    ∀ (rois : List String) (k : Nat), roi ∈ rois →
      ∃ n, (n, roi) ∈ List.enumFrom k rois := by
  intro rois
  induction rois with
  | nil => intro k h; cases h
  | cons r t ih =>
    intro k h
    rcases List.mem_cons.mp h with rfl | h2
    · exact ⟨k, List.mem_cons_self _ _⟩
    · obtain ⟨n, hn⟩ := ih (k + 1) h2
      exact ⟨n, List.mem_cons_of_mem _ hn⟩

lemma mem_enum_of_mem (roi : String) (rois : List String) (h : roi ∈ rois) :
    ∃ n, (n, roi) ∈ rois.enum :=
  mem_enumFrom_of_mem roi rois 0 h

/-- C6: every successful `process_chunk` call returns a contribution holding an
entry for every ROI of the batch, and each entry carries all six fields, the
`avgr`, `fz`, `t` vectors having length `brain_size` and `network_weight`,
`numerator`, `denominator` being present scalars. -/
theorem process_chunk_record_fields (rois : List String) (env : ChunkEnv α)
    (h : (process_chunk rois env).isOk = true) :
    ∀ roi ∈ rois, ∃ e : PartialRecord α,
      getContrib (process_chunk rois env) roi = some e ∧
      (∃ v, e.avgr = some v ∧ v.length = env.brain_size) ∧
      (∃ v, e.fz = some v ∧ v.length = env.brain_size) ∧
      (∃ v, e.t = some v ∧ v.length = env.brain_size) ∧
      e.network_weight.isSome = true ∧
      e.numerator.isSome = true ∧
      e.denominator.isSome = true := by
  have hA : (env.avgrData.rows, env.avgrData.cols) =
      (env.chunk_size, env.brain_size) := by
    by_contra hne
    simp only [process_chunk] at h
    rw [if_pos hne] at h
    simp [Except.isOk, Except.toBool] at h
  have hF : (env.fzData.rows, env.fzData.cols) =
      (env.chunk_size, env.brain_size) := by
    by_contra hne
    simp only [process_chunk] at h
    rw [if_neg (not_ne_iff.mpr hA), if_pos hne] at h
    simp [Except.isOk, Except.toBool] at h
  have hT : (env.tData.rows, env.tData.cols) =
      (env.chunk_size, env.brain_size) := by
    by_contra hne
    simp only [process_chunk] at h
    rw [if_neg (not_ne_iff.mpr hA), if_neg (not_ne_iff.mpr hF), if_pos hne] at h
    simp [Except.isOk, Except.toBool] at h
  have hC : (env.comboData.rows, env.comboData.cols) =
      (env.chunk_size, env.brain_size) := by
    by_contra hne
    simp only [process_chunk] at h
    rw [if_neg (not_ne_iff.mpr hA), if_neg (not_ne_iff.mpr hF),
      if_neg (not_ne_iff.mpr hT), if_pos hne] at h
    simp [Except.isOk, Except.toBool] at h
  have hA2 : env.avgrData.cols = env.brain_size := by
    rw [Prod.ext_iff] at hA; exact hA.2
  have hF2 : env.fzData.cols = env.brain_size := by
    rw [Prod.ext_iff] at hF; exact hF.2
  have hT2 : env.tData.cols = env.brain_size := by
    rw [Prod.ext_iff] at hT; exact hT.2
  have hok : ∃ mm : Contribs α, process_chunk rois env = Except.ok mm ∧
      ∀ p ∈ rois.enum, ∃ e : PartialRecord α, mm p.2 = some e ∧
        (∃ v, e.avgr = some v ∧ v.length = env.brain_size) ∧
        (∃ v, e.fz = some v ∧ v.length = env.brain_size) ∧
        (∃ v, e.t = some v ∧ v.length = env.brain_size) ∧
        e.network_weight.isSome = true ∧
        e.numerator.isSome = true ∧
        e.denominator.isSome = true := by
    simp only [process_chunk]
    rw [if_neg (not_ne_iff.mpr hA), if_neg (not_ne_iff.mpr hF),
      if_neg (not_ne_iff.mpr hT), if_neg (not_ne_iff.mpr hC)]
    refine ⟨_, rfl, ?_⟩
    set bwts := List.map env.brainT rois with hbwts
    set cwts := List.map env.chunkT rois with hcwts
    set bms := List.map (fun w => List.map (fun x => decide (x ≠ 0)) w) bwts with hbms
    set cms := List.map (fun w => List.map (fun x => decide (x ≠ 0)) w) cwts with hcms
    set ncm := (compute_chunk_masks cwts env.norm_weight env.std_weight).1 with hncm
    set scm := (compute_chunk_masks cwts env.norm_weight env.std_weight).2 with hscm
    set nmA := compute_network_maps scm env.avgrData with hnmA
    set nmF := compute_network_maps scm env.fzData with hnmF
    set nmT := compute_network_maps scm env.tData with hnmT
    set numer := compute_numerator ncm with hnumer
    set nwts := compute_network_weights scm with hnwts
    have hscml : scm.length = rois.length := by
      rw [hscm, scm_length, hcwts, List.length_map]
    have hrowA : ∀ i, i < rois.length → (nmA.getD i []).length = env.brain_size := by
      intro i hi
      rw [hnmA, nm_row_length scm env.avgrData i (by rw [hscml]; exact hi), hA2]
    have hrowF : ∀ i, i < rois.length → (nmF.getD i []).length = env.brain_size := by
      intro i hi
      rw [hnmF, nm_row_length scm env.fzData i (by rw [hscml]; exact hi), hF2]
    have hrowT : ∀ i, i < rois.length → (nmT.getD i []).length = env.brain_size := by
      intro i hi
      rw [hnmT, nm_row_length scm env.tData i (by rw [hscml]; exact hi), hT2]
    set c1 := assignLoop (fun i _ => some
      (⟨some (nmA.getD i []), none, none, none, none, none⟩ : PartialRecord α))
      rois.enum (fun _ => none) with hc1
    set c2 := assignLoop (fun i o => o.map
      (fun e => { e with fz := some (nmF.getD i []) })) rois.enum c1 with hc2
    set c3 := assignLoop (fun i o => o.map
      (fun e => { e with t := some (nmT.getD i []) })) rois.enum c2 with hc3
    set c4 := assignLoop (fun i o => o.map (fun e =>
      { e with
        numerator := some (numer.getD i 0)
        denominator := some (compute_denominator bwts cwts bms cms
          env.comboData.data i) })) rois.enum c3 with hc4
    set c5 := assignLoop (fun i o => o.map
      (fun e => { e with network_weight := some (nwts.getD i 0) }))
      rois.enum c4 with hc5
    have H1 : ∀ p ∈ rois.enum, ∃ e : PartialRecord α, c1 p.2 = some e ∧
        (∃ v, e.avgr = some v ∧ v.length = env.brain_size) := by
      rw [hc1]
      refine assignLoop_mem _ rois.enum _ (fun _ => True)
        (fun o => ∃ e : PartialRecord α, o = some e ∧
          (∃ v, e.avgr = some v ∧ v.length = env.brain_size)) ?_ ?_
      · intro p hp o _
        obtain ⟨i, r⟩ := p
        exact ⟨_, rfl, ⟨nmA.getD i [], rfl, hrowA i (List.mem_enum hp).1⟩⟩
      · exact fun p _ => Or.inl trivial
    have H2 : ∀ p ∈ rois.enum, ∃ e : PartialRecord α, c2 p.2 = some e ∧
        (∃ v, e.avgr = some v ∧ v.length = env.brain_size) ∧
        (∃ v, e.fz = some v ∧ v.length = env.brain_size) := by
      rw [hc2]
      refine assignLoop_mem _ rois.enum _
        (fun o => ∃ e : PartialRecord α, o = some e ∧
          (∃ v, e.avgr = some v ∧ v.length = env.brain_size))
        (fun o => ∃ e : PartialRecord α, o = some e ∧
          (∃ v, e.avgr = some v ∧ v.length = env.brain_size) ∧
          (∃ v, e.fz = some v ∧ v.length = env.brain_size)) ?_
        (fun p hp => Or.inl (H1 p hp))
      intro p hp o ho
      obtain ⟨i, r⟩ := p
      have hi : i < rois.length := (List.mem_enum hp).1
      have ha : ∃ e : PartialRecord α, o = some e ∧
          (∃ v, e.avgr = some v ∧ v.length = env.brain_size) := by
        rcases ho with h1 | h1
        · exact h1
        · obtain ⟨e, he, hav, _⟩ := h1
          exact ⟨e, he, hav⟩
      obtain ⟨e, rfl, hav⟩ := ha
      exact ⟨_, rfl, hav, ⟨nmF.getD i [], rfl, hrowF i hi⟩⟩
    have H3 : ∀ p ∈ rois.enum, ∃ e : PartialRecord α, c3 p.2 = some e ∧
        (∃ v, e.avgr = some v ∧ v.length = env.brain_size) ∧
        (∃ v, e.fz = some v ∧ v.length = env.brain_size) ∧
        (∃ v, e.t = some v ∧ v.length = env.brain_size) := by
      rw [hc3]
      refine assignLoop_mem _ rois.enum _
        (fun o => ∃ e : PartialRecord α, o = some e ∧
          (∃ v, e.avgr = some v ∧ v.length = env.brain_size) ∧
          (∃ v, e.fz = some v ∧ v.length = env.brain_size))
        (fun o => ∃ e : PartialRecord α, o = some e ∧
          (∃ v, e.avgr = some v ∧ v.length = env.brain_size) ∧
          (∃ v, e.fz = some v ∧ v.length = env.brain_size) ∧
          (∃ v, e.t = some v ∧ v.length = env.brain_size)) ?_
        (fun p hp => Or.inl (H2 p hp))
      intro p hp o ho
      obtain ⟨i, r⟩ := p
      have hi : i < rois.length := (List.mem_enum hp).1
      have ha : ∃ e : PartialRecord α, o = some e ∧
          (∃ v, e.avgr = some v ∧ v.length = env.brain_size) ∧
          (∃ v, e.fz = some v ∧ v.length = env.brain_size) := by
        rcases ho with h1 | h1
        · exact h1
        · obtain ⟨e, he, hav, hfz, _⟩ := h1
          exact ⟨e, he, hav, hfz⟩
      obtain ⟨e, rfl, hav, hfz⟩ := ha
      exact ⟨_, rfl, hav, hfz, ⟨nmT.getD i [], rfl, hrowT i hi⟩⟩
    have H4 : ∀ p ∈ rois.enum, ∃ e : PartialRecord α, c4 p.2 = some e ∧
        (∃ v, e.avgr = some v ∧ v.length = env.brain_size) ∧
        (∃ v, e.fz = some v ∧ v.length = env.brain_size) ∧
        (∃ v, e.t = some v ∧ v.length = env.brain_size) ∧
        e.numerator.isSome = true ∧
        e.denominator.isSome = true := by
      rw [hc4]
      refine assignLoop_mem _ rois.enum _
        (fun o => ∃ e : PartialRecord α, o = some e ∧
          (∃ v, e.avgr = some v ∧ v.length = env.brain_size) ∧
          (∃ v, e.fz = some v ∧ v.length = env.brain_size) ∧
          (∃ v, e.t = some v ∧ v.length = env.brain_size))
        (fun o => ∃ e : PartialRecord α, o = some e ∧
          (∃ v, e.avgr = some v ∧ v.length = env.brain_size) ∧
          (∃ v, e.fz = some v ∧ v.length = env.brain_size) ∧
          (∃ v, e.t = some v ∧ v.length = env.brain_size) ∧
          e.numerator.isSome = true ∧
          e.denominator.isSome = true) ?_
        (fun p hp => Or.inl (H3 p hp))
      intro p hp o ho
      obtain ⟨i, r⟩ := p
      have ha : ∃ e : PartialRecord α, o = some e ∧
          (∃ v, e.avgr = some v ∧ v.length = env.brain_size) ∧
          (∃ v, e.fz = some v ∧ v.length = env.brain_size) ∧
          (∃ v, e.t = some v ∧ v.length = env.brain_size) := by
        rcases ho with h1 | h1
        · exact h1
        · obtain ⟨e, he, hav, hfz, ht, _⟩ := h1
          exact ⟨e, he, hav, hfz, ht⟩
      obtain ⟨e, rfl, hav, hfz, ht⟩ := ha
      exact ⟨_, rfl, hav, hfz, ht, rfl, rfl⟩
    have H5 : ∀ p ∈ rois.enum, ∃ e : PartialRecord α, c5 p.2 = some e ∧
        (∃ v, e.avgr = some v ∧ v.length = env.brain_size) ∧
        (∃ v, e.fz = some v ∧ v.length = env.brain_size) ∧
        (∃ v, e.t = some v ∧ v.length = env.brain_size) ∧
        e.network_weight.isSome = true ∧
        e.numerator.isSome = true ∧
        e.denominator.isSome = true := by
      rw [hc5]
      refine assignLoop_mem _ rois.enum _
        (fun o => ∃ e : PartialRecord α, o = some e ∧
          (∃ v, e.avgr = some v ∧ v.length = env.brain_size) ∧
          (∃ v, e.fz = some v ∧ v.length = env.brain_size) ∧
          (∃ v, e.t = some v ∧ v.length = env.brain_size) ∧
          e.numerator.isSome = true ∧
          e.denominator.isSome = true)
        (fun o => ∃ e : PartialRecord α, o = some e ∧
          (∃ v, e.avgr = some v ∧ v.length = env.brain_size) ∧
          (∃ v, e.fz = some v ∧ v.length = env.brain_size) ∧
          (∃ v, e.t = some v ∧ v.length = env.brain_size) ∧
          e.network_weight.isSome = true ∧
          e.numerator.isSome = true ∧
          e.denominator.isSome = true) ?_
        (fun p hp => Or.inl (H4 p hp))
      intro p hp o ho
      obtain ⟨i, r⟩ := p
      have ha : ∃ e : PartialRecord α, o = some e ∧
          (∃ v, e.avgr = some v ∧ v.length = env.brain_size) ∧
          (∃ v, e.fz = some v ∧ v.length = env.brain_size) ∧
          (∃ v, e.t = some v ∧ v.length = env.brain_size) ∧
          e.numerator.isSome = true ∧
          e.denominator.isSome = true := by
        rcases ho with h1 | h1
        · exact h1
        · obtain ⟨e, he, hav, hfz, ht, _, hnum, hden⟩ := h1
          exact ⟨e, he, hav, hfz, ht, hnum, hden⟩
      obtain ⟨e, rfl, hav, hfz, ht, hnum, hden⟩ := ha
      exact ⟨_, rfl, hav, hfz, ht, rfl, hnum, hden⟩
    exact H5
  intro roi hroi
  obtain ⟨mm, hmm, hq⟩ := hok
  obtain ⟨n, hn⟩ := mem_enum_of_mem roi rois hroi
  obtain ⟨e, he, hrest⟩ := hq (n, roi) hn
  refine ⟨e, ?_, hrest⟩
  rw [hmm]
  exact he

/-- Witness for C6 at a concrete two-voxel environment and one ROI. -/
theorem process_chunk_record_fields_witness :
    (process_chunk ["r"] envOK).isOk = true ∧
    (∃ e : PartialRecord ℤ, getContrib (process_chunk ["r"] envOK) "r" = some e ∧
      (∃ v, e.avgr = some v ∧ v.length = envOK.brain_size) ∧
      (∃ v, e.fz = some v ∧ v.length = envOK.brain_size) ∧
      (∃ v, e.t = some v ∧ v.length = envOK.brain_size) ∧
      e.network_weight.isSome = true ∧
      e.numerator.isSome = true ∧
      e.denominator.isSome = true) :=
  ⟨rfl, process_chunk_record_fields ["r"] envOK rfl "r" (List.mem_singleton.mpr rfl)⟩

end PFC
